import Mathlib

/-!
Verification development for the ssh-mcp-server core (src/src/index.ts):
host-inventory parsing, host/command allow/disallow policy evaluation,
and edit-command synthesis with sed escaping and base64 encoding.

Strings are embedded as `List Char` (`Str`); JavaScript `RegExp` objects built
by the source are embedded by translating the generated regex text into a
token list (`RTok`) and giving that fragment its standard matching semantics.
-/

set_option maxRecDepth 10000

abbrev Str := List Char

/-- `String.toList` shorthand used to write `Str` literals. -/
def strL (s : String) : Str := s.toList

/-- The single-quote character (used inside generated shell commands). -/
def sqC : Char := Char.ofNat 39

/-- The backtick character. -/
def bqC : Char := Char.ofNat 96

/-- The left-brace character. -/
def lbrC : Char := Char.ofNat 123

/-- The right-brace character. -/
def rbrC : Char := Char.ofNat 125

/-- The backslash character. -/
def bsC : Char := '\\'

/-- The newline character. -/
def nlC : Char := '\n'

/-- Boolean test that `pre` is a leading segment of `s` (JS `String.startsWith`). -/
def leadsWith : Str → Str → Bool
  | [], _ => true
  | _ :: _, [] => false
  | a :: as, b :: bs => decide (a = b) && leadsWith as bs

/-- Boolean substring occurrence test. -/
def containsSub (needle : Str) : Str → Bool
  | [] => leadsWith needle []
  | c :: t => leadsWith needle (c :: t) || containsSub needle t

/-- JS `String.trim` on both ends (ASCII whitespace model). -/
def trimList (s : Str) : Str :=
  ((s.dropWhile Char.isWhitespace).reverse.dropWhile Char.isWhitespace).reverse

/-- ASCII-lowering of a string, modelling JS `String.toLowerCase` on ASCII input. -/
def lowerStr (s : Str) : Str := s.map Char.toLower

/-- Collapses each whitespace run to the single character that starts it mapped to a
space; with `prevWS := false` this models JS `replace(/\s+/g, ' ')`. -/
def squeeze2 (prevWS : Bool) : Str → Str
  | [] => []
  | c :: cs =>
    if c.isWhitespace then
      if prevWS then squeeze2 true cs else ' ' :: squeeze2 true cs
    else c :: squeeze2 false cs

/-- JS `replace(/\s+/g, ' ')`. -/
def squeezeWS (s : Str) : Str := squeeze2 false s

/-- JS `String.split(sep)` for a one-character separator (keeps empty fields). -/
def splitOnChar (sep : Char) : Str → List Str
  | [] => [[]]
  | c :: cs =>
    match splitOnChar sep cs with
    | [] => [[]]
    | h :: t => if c = sep then [] :: h :: t else (c :: h) :: t

/-- JS `Array.join(' ')`. -/
def joinSp : List Str → Str
  | [] => []
  | [x] => x
  | x :: xs => x ++ ' ' :: joinSp xs

/-- JS `line.split(/\s+/)` restricted to the use sites (strings already trimmed):
collapse whitespace runs, then split on the space character. -/
def splitWS (s : Str) : List Str := splitOnChar ' ' (squeezeWS s)

/-! ## Regex fragment semantics

The source builds JS regexes whose text consists only of escaped literals
(`\c`), the dot (`.`), and the starred dot (`.*`).  `RTok` is that fragment. -/

inductive RTok where
  | lit : Char → RTok
  | one : RTok
  | star : RTok
deriving DecidableEq, Repr

/-- Character comparison of the regex engine; `ci = true` models the `i` flag
(ASCII case folding). -/
def charMatches (ci : Bool) (c d : Char) : Bool :=
  if ci then decide (c.toLower = d.toLower) else decide (c = d)

/-- Anchored matching of a token list against a whole subject: the semantics of
`new RegExp("^" ++ r ++ "$").test s` for a regex `r` in the fragment.
`star` consumes any number of characters, hence the suffix search. -/
def rMatch (ci : Bool) : List RTok → Str → Bool
  | [], s => decide (s = [])
  | RTok.lit c :: ts, s =>
    match s with
    | [] => false
    | d :: ds => charMatches ci c d && rMatch ci ts ds
  | RTok.one :: ts, s =>
    match s with
    | [] => false
    | _ :: ds => rMatch ci ts ds
  | RTok.star :: ts, s => (List.tails s).any fun t => rMatch ci ts t

/-- Matching of a token list against some prefix of the subject. -/
def rMatchPre (ci : Bool) : List RTok → Str → Bool
  | [], _ => true
  | RTok.lit c :: ts, s =>
    match s with
    | [] => false
    | d :: ds => charMatches ci c d && rMatchPre ci ts ds
  | RTok.one :: ts, s =>
    match s with
    | [] => false
    | _ :: ds => rMatchPre ci ts ds
  | RTok.star :: ts, s => (List.tails s).any fun t => rMatchPre ci ts t

/-- Unanchored search: the semantics of `RegExp.test` without anchors — some
substring (a prefix of some suffix) matches the token list. -/
def rTest (ci : Bool) (ts : List RTok) (s : Str) : Bool :=
  (List.tails s).any fun t => rMatchPre ci ts t

/-- Unescaped regex metacharacters that the token fragment cannot represent;
the generated regex texts never contain them unescaped. -/
def regexMeta : List Char :=
  ['*', '?', '+', '(', ')', '[', ']', '|', '^', '$', lbrC, rbrC]

/-- Translates a regex text of the generated fragment into tokens: `\c` is a
literal, `.*` is `star`, a bare `.` is `one`, and any other non-metacharacter
is a literal.  Texts outside the fragment are rejected with `none`. -/
def parseRegex : Str → Option (List RTok)
  | [] => some []
  | '\\' :: [] => none
  | '\\' :: d :: rest => (parseRegex rest).map fun ts => RTok.lit d :: ts
  | '.' :: '*' :: rest => (parseRegex rest).map fun ts => RTok.star :: ts
  | '.' :: rest => (parseRegex rest).map fun ts => RTok.one :: ts
  | c :: rest =>
    if c ∈ regexMeta then none else (parseRegex rest).map fun ts => RTok.lit c :: ts

/-! ## The two pattern compilers of the source -/

/-- The character class `[.+^${}()|[\]\\]` escaped by `matchesCommandPattern`. -/
def cmdEscChars : List Char :=
  ['.', '+', '^', '$', lbrC, rbrC, '(', ')', '|', '[', ']', bsC]

/-- The character class `[.+?^${}()|[\]\\]` escaped by `matchesPattern` (hosts). -/
def hostEscChars : List Char :=
  ['.', '+', '?', '^', '$', lbrC, rbrC, '(', ')', '|', '[', ']', bsC]

/-- JS `replace(/[class]/g, '\\$&')`: each character of the class gets a
backslash prefix. -/
def escWith (cls : List Char) (s : Str) : Str :=
  s.flatMap fun c => if c ∈ cls then [bsC, c] else [c]

/-- JS `replace(/\*/g, '.*')`. -/
def replStar (s : Str) : Str :=
  s.flatMap fun c => if c = '*' then ['.', '*'] else [c]

/-- JS `replace(/\?/g, '.')`. -/
def replQm (s : Str) : Str :=
  s.flatMap fun c => if c = '?' then ['.'] else [c]

/-- The regex text built by `matchesCommandPattern`. -/
def regexOfCmdPattern (p : Str) : Str := replQm (replStar (escWith cmdEscChars p))

/-- The regex text built by `matchesPattern` (before the `^`/`$` anchors). -/
def regexOfHostPattern (p : Str) : Str := replStar (escWith hostEscChars p)

/-- `matchesCommandPattern(command, pattern)`: compile the pattern, then run an
unanchored case-insensitive (`i` flag) test against the trimmed command. -/
def matchesCommandPattern (command pattern : Str) : Bool :=
  match parseRegex (regexOfCmdPattern pattern) with
  | some ts => rTest true ts (trimList command)
  | none => false

/-- `matchesPattern(hostname, pattern)`: compile the pattern and run the
anchored (`^...$`), case-sensitive test against the whole hostname. -/
def matchesPattern (hostname pattern : Str) : Bool :=
  match parseRegex (regexOfHostPattern pattern) with
  | some ts => rMatch false ts hostname
  | none => false

/-! ## Policy filters (AccessPolicy for hosts, CommandPolicy for commands) -/

structure ServerFilter where
  allow : List Str
  disallow : List Str
deriving DecidableEq

structure CommandFilter where
  allow : List Str
  disallow : List Str
deriving DecidableEq

/-- The built-in dangerous-command disallow list of `loadCommandFilter`. -/
def defaultDangerousCommands : List Str :=
  [strL "rm *", strL "rm -rf *", strL "rm -rf /", strL "dd if=*", strL "mkfs.*",
   strL "fdisk", strL "parted", strL "shutdown.*", strL "reboot.*", strL "halt.*",
   strL "poweroff.*", strL "init 0", strL "init 6", strL "killall.*", strL "pkill.*",
   strL "chmod 777 *", strL "chown -R * /", strL "find .* -delete",
   strL "find .* -exec rm", strL "> /dev/sd.*", strL "cat /dev/urandom >",
   strL "fork.*bomb", strL ":()\x7b :|:& \x7d;:", strL "history -c",
   strL "unset HISTFILE"]

/-- The `CommandFilter` produced by `loadCommandFilter` when neither
`SSH_MCP_COMMAND_ALLOW` nor `SSH_MCP_COMMAND_DISALLOW` is set. -/
def defaultCommandFilter : CommandFilter :=
  { allow := [], disallow := defaultDangerousCommands }

structure PolicyCheck where
  allowed : Bool
  reason : Option Str := none
deriving DecidableEq

/-- The rejection reason returned when a disallow pattern matches a command. -/
def cmdBlockedReason (p : Str) : Str :=
  strL "Command blocked by security policy. Matches disallowed pattern: \x27"
    ++ p ++ strL "\x27"

/-- The rejection reason returned when a non-empty allow list has no match. -/
def cmdNotInAllowReason : Str :=
  strL "Command not in allowed list. Use SSH_MCP_COMMAND_ALLOW to permit specific commands."

/-- `isCommandAllowed`: clean the command, reject on the first matching disallow
pattern, permit if the allow list is empty, otherwise require an allow match.
The source's first-match `for` loops are rendered with `List.find?`. -/
def isCommandAllowed (cf : CommandFilter) (command : Str) : PolicyCheck :=
  let cleanCommand := squeezeWS (trimList command)
  match cf.disallow.find? (fun p => matchesCommandPattern cleanCommand p) with
  | some p => { allowed := false, reason := some (cmdBlockedReason p) }
  | none =>
    if cf.allow = [] then { allowed := true }
    else if cf.allow.any (fun p => matchesCommandPattern cleanCommand p) then
      { allowed := true }
    else { allowed := false, reason := some cmdNotInAllowReason }

/-- The `console.error` line emitted when a host is blocked by a disallow pattern. -/
def hostBlockedLog (h p : Str) : Str :=
  strL "Host \x27" ++ h ++ strL "\x27 blocked by disallow pattern: \x27" ++ p ++ strL "\x27"

/-- The `console.error` line emitted when a host matches an allow pattern. -/
def hostAllowedLog (h p : Str) : Str :=
  strL "Host \x27" ++ h ++ strL "\x27 allowed by pattern: \x27" ++ p ++ strL "\x27"

/-- The `console.error` line emitted when a non-empty allow list has no match. -/
def hostNotAllowedLog (h : Str) : Str :=
  strL "Host \x27" ++ h ++ strL "\x27 not allowed - no matching allow patterns"

/-- `isHostAllowed` together with the `console.error` diagnostics it emits;
the source returns only the boolean and writes the reason to the log, so the
log is embedded as a second component. -/
def isHostAllowedLog (sf : ServerFilter) (hostname : Str) : Bool × List Str :=
  if sf.allow = [] ∧ sf.disallow = [] then (true, [])
  else
    match sf.disallow.find? (fun p => matchesPattern hostname p) with
    | some p => (false, [hostBlockedLog hostname p])
    | none =>
      if sf.allow = [] then (true, [])
      else
        match sf.allow.find? (fun p => matchesPattern hostname p) with
        | some p => (true, [hostAllowedLog hostname p])
        | none => (false, [hostNotAllowedLog hostname])

/-- The boolean result of `isHostAllowed`. -/
def isHostAllowed (sf : ServerFilter) (hostname : Str) : Bool :=
  (isHostAllowedLog sf hostname).1

/-! ## ConfigStore: SSH config parsing -/

/-- A host record; unrecognized lower-cased directives land in `extra`
(the source assigns them as dynamic object properties). -/
structure SSHHost where
  host : Str
  hostname : Option Str := none
  user : Option Str := none
  port : Option (Option Int) := none
  identityFile : Option Str := none
  proxyJump : Option Str := none
  extra : List (Str × Str) := []
deriving DecidableEq

/-- JS `Map.set` / object-property assignment on an association list:
replace in place if the key exists, append otherwise. -/
def mapSet {α β : Type} [DecidableEq α] : List (α × β) → α → β → List (α × β)
  | [], k, v => [(k, v)]
  | kv :: rest, k, v => if kv.1 = k then (k, v) :: rest else kv :: mapSet rest k v

/-- JS `Map.get` on an association list. -/
def mapGet {α β : Type} [DecidableEq α] (m : List (α × β)) (k : α) : Option β :=
  (m.find? fun kv => decide (kv.1 = k)).map fun kv => kv.2

/-- Accumulated decimal value of a digit string. -/
def digitsToNat : Nat → Str → Nat
  | acc, [] => acc
  | acc, c :: cs => digitsToNat (acc * 10 + (c.toNat - 48)) cs

/-- Model of JS `parseInt` on decimal input: skip leading whitespace, optional
sign, then the longest digit prefix; `none` models `NaN`. -/
def jsParseInt (s : Str) : Option Int :=
  let t := s.dropWhile Char.isWhitespace
  match t with
  | '-' :: rest =>
    let ds := rest.takeWhile Char.isDigit
    if ds = [] then none else some (-(digitsToNat 0 ds : Int))
  | '+' :: rest =>
    let ds := rest.takeWhile Char.isDigit
    if ds = [] then none else some (digitsToNat 0 ds : Int)
  | _ =>
    let ds := t.takeWhile Char.isDigit
    if ds = [] then none else some (digitsToNat 0 ds : Int)

/-- JS `value.replace('~', home)`: replace the first tilde only. -/
def replaceFirstTilde (home : Str) : Str → Str
  | [] => []
  | c :: cs => if c = '~' then home ++ cs else c :: replaceFirstTilde home cs

/-- The `key`/`value` switch of `parseSSHConfig` applied to the current host. -/
def applyDirective (home key value : Str) (h : SSHHost) : SSHHost :=
  let lowerKey := lowerStr key
  if lowerKey = strL "hostname" then { h with hostname := some value }
  else if lowerKey = strL "user" then { h with user := some value }
  else if lowerKey = strL "port" then { h with port := some (jsParseInt value) }
  else if lowerKey = strL "identityfile" then
    { h with identityFile := some (replaceFirstTilde home value) }
  else if lowerKey = strL "proxyjump" then { h with proxyJump := some value }
  else { h with extra := mapSet h.extra lowerKey value }

/-- Parsing context: the host policy, the home directory, and the external
filesystem collaborator — `resolve basePath includePath` models `handleInclude`'s
path resolution, glob expansion and file reads, returning the `(path, content)`
pairs to parse in order. -/
structure ParseCtx where
  policy : ServerFilter
  home : Str
  resolve : Str → Str → List (Str × Str)

/-- Committing an in-progress stanza: `sshHosts.set` guarded by `isHostAllowed`. -/
def commitList (ctx : ParseCtx) : Option SSHHost → List (Str × SSHHost)
  | none => []
  | some h => if isHostAllowed ctx.policy h.host then [(h.host, h)] else []

/-- The line loop of `parseSSHConfig`, returning the `sshHosts.set` commit
events in order.  The registry is never read during parsing, so folding the
events afterwards (`registryOf`) is observationally the source's interleaved
`Map.set`.  `fuel` bounds the recursion (one unit per line or include level);
every claim proved about the parser holds for all fuel values. -/
def parseLines (ctx : ParseCtx) : Nat → List Str → Str → Option SSHHost → List (Str × SSHHost)
  | 0, _, _, cur => commitList ctx cur
  | _ + 1, [], _, cur => commitList ctx cur
  | fuel + 1, rawLine :: rest, basePath, cur =>
    let line := trimList rawLine
    if line = [] ∨ line.head? = some '#' then parseLines ctx fuel rest basePath cur
    else if leadsWith (strL "include ") (lowerStr line) then
      let subs := ctx.resolve basePath (trimList (line.drop 8))
      (subs.map fun pc => parseLines ctx fuel (splitOnChar nlC pc.2) pc.1 none).flatten
        ++ parseLines ctx fuel rest basePath cur
    else
      match splitWS line with
      | [] => parseLines ctx fuel rest basePath cur
      | key :: valueParts =>
        let value := joinSp valueParts
        if lowerStr key = strL "host" then
          commitList ctx cur ++ parseLines ctx fuel rest basePath (some { host := value })
        else
          match cur with
          | some h =>
            if key ≠ [] ∧ value ≠ [] then
              parseLines ctx fuel rest basePath (some (applyDirective ctx.home key value h))
            else parseLines ctx fuel rest basePath (some h)
          | none => parseLines ctx fuel rest basePath cur

/-- `parseSSHConfig(content, basePath)` as its ordered list of commit events. -/
def parseSSHConfig (ctx : ParseCtx) (fuel : Nat) (content basePath : Str) :
    List (Str × SSHHost) :=
  parseLines ctx fuel (splitOnChar nlC content) basePath none

/-- Replaying the commit events into the `sshHosts` map. -/
def registryOf (commits : List (Str × SSHHost)) : List (Str × SSHHost) :=
  commits.foldl (fun m kv => mapSet m kv.1 kv.2) []

/-- The finished host registry after loading `content`. -/
def loadRegistry (ctx : ParseCtx) (fuel : Nat) (content basePath : Str) :
    List (Str × SSHHost) :=
  registryOf (parseSSHConfig ctx fuel content basePath)

/-- The record committed for the last stanza declaring alias `a`, if any. -/
def lastCommitFor (a : Str) : List (Str × SSHHost) → Option SSHHost
  | [] => none
  | kv :: rest =>
    match lastCommitFor a rest with
    | some v => some v
    | none => if kv.1 = a then some kv.2 else none

/-! ## Request-time host validation -/

def hostNotAllowedErr (h : Str) : Str :=
  strL "Host \x27" ++ h ++ strL "\x27 is not allowed by server access filters"

def hostNotFoundErr (h : Str) : Str :=
  strL "Host \x27" ++ h ++ strL "\x27 not found in SSH config"

/-- `validateHostAccess`: return the stored record, otherwise distinguish a
policy-rejected alias from an unknown one. -/
def validateHostAccess (registry : List (Str × SSHHost)) (sf : ServerFilter)
    (host : Str) : Except Str SSHHost :=
  match mapGet registry host with
  | some hostConfig => Except.ok hostConfig
  | none =>
    if isHostAllowed sf host = false then Except.error (hostNotAllowedErr host)
    else Except.error (hostNotFoundErr host)

/-! ## CommandSynthesizer: sed escaping, complexity classification, base64 -/

/-- JS `String.replace(/a/g, out)` for a one-character target. -/
def chReplace (a : Char) (out : Str) (s : Str) : Str :=
  s.flatMap fun c => if c = a then out else [c]

/-- `escapeSedPattern`: escape backslashes first, then the `/` delimiter. -/
def escapeSedPattern (pattern : Str) : Str :=
  chReplace '/' [bsC, '/'] (chReplace bsC [bsC, bsC] pattern)

/-- `escapeSedReplacement`: escape backslash, the `/` delimiter, `&`, and
newlines, in that order. -/
def escapeSedReplacement (replacement : Str) : Str :=
  chReplace nlC [bsC, 'n']
    (chReplace '&' [bsC, '&']
      (chReplace '/' [bsC, '/']
        (chReplace bsC [bsC, bsC] replacement)))

/-- The character class `['"$`\\(){}|;<>*?[\]~]` of `needsBase64Encoding`. -/
def complexChars : List Char :=
  [sqC, '"', '$', bqC, bsC, '(', ')', lbrC, rbrC, '|', ';', '<', '>', '*', '?',
   '[', ']', '~']

/-- `needsBase64Encoding(pattern, content)`: complex shell characters, embedded
newlines, or non-ASCII (`[^\x00-\x7F]`) code points in either text. -/
def needsBase64Encoding (pattern content : Str) : Bool :=
  (pattern.any fun c => decide (c ∈ complexChars)) ||
  (content.any fun c => decide (c ∈ complexChars)) ||
  (pattern.any fun c => decide (c = nlC)) ||
  (content.any fun c => decide (c = nlC)) ||
  (pattern.any fun c => decide (127 < c.toNat)) ||
  (content.any fun c => decide (127 < c.toNat))

/-- The base64 alphabet. -/
def b64Alphabet : Str :=
  strL "ABCDEFGHIJKLMNOPQRSTUVWXYZabcdefghijklmnopqrstuvwxyz0123456789+/"

def b64Char (n : Nat) : Char := b64Alphabet.getD n 'A'

/-- UTF-8 encoding of one scalar value. -/
def utf8Bytes (c : Char) : List Nat :=
  let n := c.toNat
  if n < 128 then [n]
  else if n < 2048 then [192 + n / 64, 128 + n % 64]
  else if n < 65536 then [224 + n / 4096, 128 + n / 64 % 64, 128 + n % 64]
  else [240 + n / 262144, 128 + n / 4096 % 64, 128 + n / 64 % 64, 128 + n % 64]

/-- Base64 of a byte list, three bytes a group, `=`-padded. -/
def base64Groups : List Nat → Str
  | [] => []
  | [a] => [b64Char (a / 4), b64Char (a % 4 * 16), '=', '=']
  | [a, b] => [b64Char (a / 4), b64Char (a % 4 * 16 + b / 16), b64Char (b % 16 * 4), '=']
  | a :: b :: c :: rest =>
    [b64Char (a / 4), b64Char (a % 4 * 16 + b / 16), b64Char (b % 16 * 4 + c / 64),
     b64Char (c % 64)] ++ base64Groups rest

/-- `Buffer.from(s).toString('base64')`. -/
def base64Encode (s : Str) : Str := base64Groups (s.flatMap utf8Bytes)

/-! ## editFile: synthesis of the remote edit command -/

/-- JS truthiness of the optional `lineNumber` (`0` and `undefined` are falsy). -/
def lnTruthy : Option Int → Option Int
  | some n => if n = 0 then none else some n
  | none => none

/-- JS truthiness of the optional `pattern` (empty string is falsy). -/
def patTruthy : Option Str → Option Str
  | some p => if p = [] then none else some p
  | none => none

/-- Decimal rendering of the JS number interpolated into the sed address. -/
def intStr (n : Int) : Str := (toString n).toList

/-- The conditional backup copy prepended when `backup` is requested. -/
def backupPart (backup : Bool) (filePath : Str) : Str :=
  if backup then
    strL "[ -f \"" ++ filePath ++ strL "\" ] && cp \"" ++ filePath ++ strL "\" \""
      ++ filePath ++ strL ".bak\"; "
  else []

/-- Replace-by-line-number: base64 decode pipeline into a sed line substitution. -/
def replaceLineCmd (n : Int) (content filePath : Str) : Str :=
  strL "echo \x27" ++ base64Encode content
    ++ strL "\x27 | base64 -d | \x7b read newline; sed -i \x27" ++ intStr n
    ++ strL "s/.*/\x27\"$newline\"\x27/\x27 \"" ++ filePath ++ strL "\"; \x7d"

/-- Insert-after-line: base64 decode pipeline into a sed append. -/
def insertLineCmd (n : Int) (content filePath : Str) : Str :=
  strL "echo \x27" ++ base64Encode content
    ++ strL "\x27 | base64 -d | \x7b read newline; sed -i \x27" ++ intStr n
    ++ strL "a\\\x27\"$newline\" \"" ++ filePath ++ strL "\"; \x7d"

/-- Delete a specific line number. -/
def deleteLineCmd (n : Int) (filePath : Str) : Str :=
  strL "sed -i \x27" ++ intStr n ++ strL "d\x27 \"" ++ filePath ++ strL "\""

/-- The base64/temporary-script path for a pattern replace: the sed script is
base64-encoded, decoded into `/tmp/sed_script_$$`, executed with `-f`, and the
temporary file removed. -/
def scriptReplaceCmd (pattern content filePath : Str) : Str :=
  let sedScript := strL "s/" ++ escapeSedPattern pattern ++ strL "/"
    ++ escapeSedReplacement content ++ strL "/g"
  strL "echo \x27" ++ base64Encode sedScript
    ++ strL "\x27 | base64 -d > /tmp/sed_script_$$ && sed -i -f /tmp/sed_script_$$ \""
    ++ filePath ++ strL "\"; rm -f /tmp/sed_script_$$"

/-- The direct in-line sed command for simple pattern replaces. -/
def inlineReplaceCmd (pattern content filePath : Str) : Str :=
  strL "sed -i \x27s/" ++ escapeSedPattern pattern ++ strL "/"
    ++ escapeSedReplacement content ++ strL "/g\x27 \"" ++ filePath ++ strL "\""

/-- The base64/temporary-script path for a pattern delete. -/
def scriptDeleteCmd (pattern filePath : Str) : Str :=
  let sedScript := strL "/" ++ escapeSedPattern pattern ++ strL "/d"
  strL "echo \x27" ++ base64Encode sedScript
    ++ strL "\x27 | base64 -d > /tmp/sed_script_$$ && sed -i -f /tmp/sed_script_$$ \""
    ++ filePath ++ strL "\"; rm -f /tmp/sed_script_$$"

/-- The direct in-line sed command for simple pattern deletes. -/
def inlineDeleteCmd (pattern filePath : Str) : Str :=
  strL "sed -i \x27/" ++ escapeSedPattern pattern ++ strL "/d\x27 \"" ++ filePath ++ strL "\""

def errReplace : Str := strL "Replace operation requires either lineNumber or pattern, and content"

def errInsert : Str := strL "Insert operation requires lineNumber and content"

def errDelete : Str := strL "Delete operation requires either lineNumber or pattern"

def errUnknownOp (op : Str) : Str := strL "Unknown operation: " ++ op

/-- `editFile`'s command synthesis: the switch over the operation kind, with the
validation errors thrown as `McpError(InvalidRequest, ...)` rendered as
`Except.error`.  The remote dispatch is outside this model. -/
def editFile (filePath operation : Str) (lineNumber : Option Int)
    (content pattern : Option Str) (backup : Bool) : Except Str Str :=
  let pre := backupPart backup filePath
  if operation = strL "replace" then
    match lnTruthy lineNumber, content with
    | some n, some cv => Except.ok (pre ++ replaceLineCmd n cv filePath)
    | _, _ =>
      match patTruthy pattern, content with
      | some pv, some cv =>
        Except.ok (pre ++
          (if needsBase64Encoding pv cv then scriptReplaceCmd pv cv filePath
           else inlineReplaceCmd pv cv filePath))
      | _, _ => Except.error errReplace
  else if operation = strL "insert" then
    match lnTruthy lineNumber, content with
    | some n, some cv => Except.ok (pre ++ insertLineCmd n cv filePath)
    | _, _ => Except.error errInsert
  else if operation = strL "delete" then
    match lnTruthy lineNumber with
    | some n => Except.ok (pre ++ deleteLineCmd n filePath)
    | none =>
      match patTruthy pattern with
      | some pv =>
        Except.ok (pre ++
          (if needsBase64Encoding pv [] then scriptDeleteCmd pv filePath
           else inlineDeleteCmd pv filePath))
      | none => Except.error errDelete
  else Except.error (errUnknownOp operation)

def isOkE {ε α : Type} : Except ε α → Bool
  | Except.ok _ => true
  | Except.error _ => false

/-! ## executeScript's per-line policy validation -/

/-- The filter applied to script lines: keep trimmed lines that are non-empty,
not comments, and not `echo ` statements. -/
def scriptLineKeep (l : Str) : Bool :=
  !decide (l = []) && !leadsWith (strL "#") l && !leadsWith (strL "echo ") l

def scriptDisallowedMsg (l : Str) (check : PolicyCheck) : Str :=
  strL "Script contains disallowed command: \"" ++ l ++ strL "\". "
    ++ check.reason.getD (strL "undefined")

/-- The `for` loop of `executeScript` that throws on the first disallowed line. -/
def checkLines (cf : CommandFilter) : List Str → Except Str Unit
  | [] => Except.ok ()
  | l :: rest =>
    if (isCommandAllowed cf l).allowed then checkLines cf rest
    else Except.error (scriptDisallowedMsg l (isCommandAllowed cf l))

/-- The pre-dispatch validation phase of `executeScript`: split, trim, filter
out blank/comment/echo lines, then validate every remaining line. -/
def scriptPolicyCheck (cf : CommandFilter) (script : Str) : Except Str Unit :=
  checkLines cf (((splitOnChar nlC script).map trimList).filter scriptLineKeep)

/-! ## executeCommand's pre-dispatch phase -/

/-- What `executeCommand` resolves before spawning ssh: the reported command,
the transport string, the encoding tag, and the timeout. -/
structure ExecPlan where
  host : Str
  command : Str
  finalCommand : Str
  encoding : Str
  timeoutSeconds : Int
deriving DecidableEq

/-- The base64 transport wrapper for a single command. -/
def b64wrap (command : Str) : Str :=
  strL "echo \x27" ++ base64Encode command ++ strL "\x27 | base64 -d | bash"

/-- `executeCommand(host, command, timeout, useBase64)` up to the spawn point:
host validation, command policy, and construction of the transport string. -/
def executeCommandPlan (registry : List (Str × SSHHost)) (sf : ServerFilter)
    (cf : CommandFilter) (host command : Str) (timeout : Int) (useBase64 : Bool) :
    Except Str ExecPlan :=
  match validateHostAccess registry sf host with
  | Except.error e => Except.error e
  | Except.ok _ =>
    let commandCheck := isCommandAllowed cf command
    if commandCheck.allowed then
      Except.ok
        { host := host
          command := if useBase64 then strL "[Base64 Encoded] " ++ command else command
          finalCommand := if useBase64 then b64wrap command else command
          encoding := if useBase64 then strL "base64" else strL "plain"
          timeoutSeconds := timeout }
    else Except.error (commandCheck.reason.getD (strL "Command not allowed"))

/-- The ok-case difference made by `useBase64 = true`: only the reported
command, the transport string, and the encoding tag change. -/
def toBase64Plan (command : Str) (p : ExecPlan) : ExecPlan :=
  { p with
      command := strL "[Base64 Encoded] " ++ command
      finalCommand := b64wrap command
      encoding := strL "base64" }

/-! ## Model of the external sed collaborator (replacement interpretation)

GNU sed interprets the replacement text of `s///`: `&` re-inserts the matched
text, `\n` is a newline, and `\c` is the literal `c`.  The escaped texts built
by `escapeSedReplacement` never contain `\` followed by a digit, so
backreferences do not arise. -/

def sedReplApply (matched : Str) : Str → Str
  | [] => []
  | c :: rest =>
    if c = bsC then
      match rest with
      | [] => [bsC]
      | d :: rest2 => (if d = 'n' then nlC else d) :: sedReplApply matched rest2
    else if c = '&' then matched ++ sedReplApply matched rest
    else c :: sedReplApply matched rest

/-- Applying the synthesized substitution to a single-line target that contains
the literal matched text once: the match is replaced by the interpreted
replacement text. -/
def sedSubstOutput (matched repl pre post : Str) : Str :=
  pre ++ sedReplApply matched repl ++ post

/-! ## Spec-side matcher definitions (for the refinement claim about the two
pattern-matching semantics).  These follow the specification's words: host
patterns know only `*`, are anchored and case-sensitive; command patterns know
`*` and `?`, are searched unanchored in the trimmed command, case-insensitively;
all other characters are literals. -/

def specHostToks (pattern : Str) : List RTok :=
  pattern.flatMap fun c => if c = '*' then [RTok.star] else [RTok.lit c]

def specHostMatch (pattern subject : Str) : Bool :=
  rMatch false (specHostToks pattern) subject

def specCmdToks (pattern : Str) : List RTok :=
  pattern.flatMap fun c =>
    if c = '*' then [RTok.star] else if c = '?' then [RTok.one] else [RTok.lit c]

def specCmdMatch (pattern subject : Str) : Bool :=
  rTest true (specCmdToks pattern) (trimList subject)

/-! ## Correctness of the two pattern compilers -/

def cmdChunk (c : Char) : Str :=
  if c ∈ cmdEscChars then ['\\', c]
  else if c = '*' then ['.', '*']
  else if c = '?' then ['.']
  else [c]

def hostChunk (c : Char) : Str :=
  if c ∈ hostEscChars then ['\\', c]
  else if c = '*' then ['.', '*']
  else [c]

theorem regexOfCmdPattern_cons (c : Char) (p : Str) :
    regexOfCmdPattern (c :: p) = cmdChunk c ++ regexOfCmdPattern p := by
  by_cases h1 : c ∈ cmdEscChars
  · have h2 : c ≠ '*' := by rintro rfl; exact absurd h1 (by decide)
    have h3 : c ≠ '?' := by rintro rfl; exact absurd h1 (by decide)
    simp [regexOfCmdPattern, escWith, replStar, replQm, cmdChunk, h1, h2, h3, bsC]
  · by_cases h2 : c = '*'
    · subst h2
      simp [regexOfCmdPattern, escWith, replStar, replQm, cmdChunk, h1]
    · by_cases h3 : c = '?'
      · subst h3
        simp [regexOfCmdPattern, escWith, replStar, replQm, cmdChunk, h1]
      · simp [regexOfCmdPattern, escWith, replStar, replQm, cmdChunk, h1, h2, h3]

theorem regexOfHostPattern_cons (c : Char) (p : Str) :
    regexOfHostPattern (c :: p) = hostChunk c ++ regexOfHostPattern p := by
  by_cases h1 : c ∈ hostEscChars
  · have h2 : c ≠ '*' := by rintro rfl; exact absurd h1 (by decide)
    simp [regexOfHostPattern, escWith, replStar, hostChunk, h1, h2, bsC]
  · by_cases h2 : c = '*'
    · subst h2
      simp [regexOfHostPattern, escWith, replStar, hostChunk, h1]
    · simp [regexOfHostPattern, escWith, replStar, hostChunk, h1, h2]

theorem regexOfCmdPattern_head (p : Str) : (regexOfCmdPattern p).head? ≠ some '*' := by
  cases p with
  | nil => simp [regexOfCmdPattern, escWith, replStar, replQm]
  | cons c p =>
    rw [regexOfCmdPattern_cons]
    by_cases h1 : c ∈ cmdEscChars
    · simp [cmdChunk, h1]
    · by_cases h2 : c = '*'
      · subst h2; simp [cmdChunk, h1]
      · by_cases h3 : c = '?'
        · subst h3; simp [cmdChunk, h1]
        · simp [cmdChunk, h1, h2, h3]

theorem not_mem_regexMeta_of_cmd (c : Char) (h1 : c ∉ cmdEscChars) (h2 : c ≠ '*')
    (h3 : c ≠ '?') : c ∉ regexMeta := by
  intro hm
  simp [regexMeta, lbrC, rbrC] at hm
  rcases hm with rfl | rfl | rfl | rfl | rfl | rfl | rfl | rfl | rfl | rfl | rfl | rfl
  · exact h2 rfl
  · exact h3 rfl
  all_goals exact h1 (by decide)

theorem not_mem_regexMeta_of_host (c : Char) (h1 : c ∉ hostEscChars) (h2 : c ≠ '*') :
    c ∉ regexMeta := by
  intro hm
  simp [regexMeta, lbrC, rbrC] at hm
  rcases hm with rfl | rfl | rfl | rfl | rfl | rfl | rfl | rfl | rfl | rfl | rfl | rfl
  · exact h2 rfl
  all_goals exact h1 (by decide)

theorem parseRegex_esc_cons (d : Char) (r : Str) :
    parseRegex ('\\' :: d :: r) = (parseRegex r).map fun ts => RTok.lit d :: ts := rfl

theorem parseRegex_starchunk (r : Str) :
    parseRegex ('.' :: '*' :: r) = (parseRegex r).map fun ts => RTok.star :: ts := rfl

theorem parseRegex_dot_cons (r : Str) (h : r.head? ≠ some '*') :
    parseRegex ('.' :: r) = (parseRegex r).map fun ts => RTok.one :: ts := by
  cases r with
  | nil => rfl
  | cons a as =>
    have ha : a ≠ '*' := by simpa using h
    rw [parseRegex.eq_def]
    split
    · simp_all
    · simp_all
    · simp_all
    · simp_all
    · rename_i hh1 hh2
      injection hh2 with hh3 hh4
      rw [← hh4]
    · rename_i hdot hconj
      injection hconj with hc ht
      subst hc
      simp_all

theorem parseRegex_lit_cons (c : Char) (r : Str) (h1 : c ≠ '\\') (h2 : c ≠ '.')
    (h3 : c ∉ regexMeta) :
    parseRegex (c :: r) = (parseRegex r).map fun ts => RTok.lit c :: ts := by
  rw [parseRegex.eq_def]
  split
  · simp_all
  · simp_all
  · simp_all
  · simp_all
  · simp_all
  · rename_i hdot hcons
    injection hcons with ha hb
    subst ha
    subst hb
    simp [h3]

theorem parse_regexOfCmdPattern (p : Str) :
    parseRegex (regexOfCmdPattern p) = some (specCmdToks p) := by
  induction p with
  | nil => rfl
  | cons c p ih =>
    rw [regexOfCmdPattern_cons]
    by_cases h1 : c ∈ cmdEscChars
    · have h2 : c ≠ '*' := by rintro rfl; exact absurd h1 (by decide)
      have h3 : c ≠ '?' := by rintro rfl; exact absurd h1 (by decide)
      simp only [cmdChunk, if_pos h1, List.cons_append, List.nil_append]
      rw [parseRegex_esc_cons, ih]
      simp [specCmdToks, h2, h3]
    · by_cases h2 : c = '*'
      · subst h2
        rw [show cmdChunk '*' = ['.', '*'] from by decide]
        rw [show (['.', '*'] ++ regexOfCmdPattern p) = '.' :: '*' :: regexOfCmdPattern p
          from rfl]
        rw [parseRegex_starchunk, ih]
        simp [specCmdToks]
      · by_cases h3 : c = '?'
        · subst h3
          rw [show cmdChunk '?' = ['.'] from by decide]
          rw [show (['.'] ++ regexOfCmdPattern p) = '.' :: regexOfCmdPattern p from rfl]
          rw [parseRegex_dot_cons _ (regexOfCmdPattern_head p), ih]
          simp [specCmdToks]
        · have hbs : c ≠ '\\' := by rintro rfl; exact absurd (by decide) h1
          have hdot : c ≠ '.' := by rintro rfl; exact absurd (by decide) h1
          simp only [cmdChunk, if_neg h1, if_neg h2, if_neg h3, List.cons_append,
            List.nil_append]
          rw [parseRegex_lit_cons c _ hbs hdot (not_mem_regexMeta_of_cmd c h1 h2 h3), ih]
          simp [specCmdToks, h2, h3]

theorem parse_regexOfHostPattern (p : Str) :
    parseRegex (regexOfHostPattern p) = some (specHostToks p) := by
  induction p with
  | nil => rfl
  | cons c p ih =>
    rw [regexOfHostPattern_cons]
    by_cases h1 : c ∈ hostEscChars
    · have h2 : c ≠ '*' := by rintro rfl; exact absurd h1 (by decide)
      simp only [hostChunk, if_pos h1, List.cons_append, List.nil_append]
      rw [parseRegex_esc_cons, ih]
      simp [specHostToks, h2]
    · by_cases h2 : c = '*'
      · subst h2
        rw [show hostChunk '*' = ['.', '*'] from by decide]
        rw [show (['.', '*'] ++ regexOfHostPattern p) = '.' :: '*' :: regexOfHostPattern p
          from rfl]
        rw [parseRegex_starchunk, ih]
        simp [specHostToks]
      · have hbs : c ≠ '\\' := by rintro rfl; exact absurd (by decide) h1
        have hdot : c ≠ '.' := by rintro rfl; exact absurd (by decide) h1
        simp only [hostChunk, if_neg h1, if_neg h2, List.cons_append, List.nil_append]
        rw [parseRegex_lit_cons c _ hbs hdot (not_mem_regexMeta_of_host c h1 h2), ih]
        simp [specHostToks, h2]

/-- Claim C2: the two matchers differ exactly as specified — host matching
treats only `*` as a wildcard (zero or more characters), anchors the match over
the whole subject, and compares case-sensitively (`?` is a literal); command
matching treats `*` and `?` (exactly one character) as wildcards, searches the
pattern as an unanchored substring of the trimmed command, and compares
case-insensitively; in both, every other regex metacharacter is escaped and
matched literally.  `specHostMatch`/`specCmdMatch` state those semantics
directly; the equalities hold for all patterns and subjects. -/
theorem claimC2 (pattern subject : Str) :
    matchesPattern subject pattern = specHostMatch pattern subject
    ∧ matchesCommandPattern subject pattern = specCmdMatch pattern subject := by
  constructor
  · rw [matchesPattern, parse_regexOfHostPattern]
    rfl
  · rw [matchesCommandPattern, parse_regexOfCmdPattern]
    rfl

/-! ## Policy evaluation -/

/-- Claim C1: policy evaluation for both hosts and commands: a disallow match rejects
with a reason naming the matched pattern regardless of the allow list; with no
disallow match an empty allow list permits; with no disallow match and a
non-empty allow list the subject is permitted iff some allow pattern matches,
and otherwise rejected with the not-in-allowed-list reason.  (The host
evaluator returns a bare boolean and emits its reasons on the diagnostic log,
embedded as the second component of `isHostAllowedLog`.) -/
theorem claimC1 (cf : CommandFilter) (sf : ServerFilter) (cmd host : Str) :
    (((∃ p ∈ cf.disallow, matchesCommandPattern (squeezeWS (trimList cmd)) p = true) →
        (isCommandAllowed cf cmd).allowed = false ∧
        ∃ p ∈ cf.disallow, matchesCommandPattern (squeezeWS (trimList cmd)) p = true ∧
          (isCommandAllowed cf cmd).reason = some (cmdBlockedReason p))
      ∧ ((∀ p ∈ cf.disallow, matchesCommandPattern (squeezeWS (trimList cmd)) p = false) →
          cf.allow = [] → (isCommandAllowed cf cmd).allowed = true)
      ∧ ((∀ p ∈ cf.disallow, matchesCommandPattern (squeezeWS (trimList cmd)) p = false) →
          cf.allow ≠ [] →
          ((isCommandAllowed cf cmd).allowed = true ↔
            ∃ p ∈ cf.allow, matchesCommandPattern (squeezeWS (trimList cmd)) p = true)
          ∧ ((isCommandAllowed cf cmd).allowed = false →
              (isCommandAllowed cf cmd).reason = some cmdNotInAllowReason)))
    ∧ (((∃ p ∈ sf.disallow, matchesPattern host p = true) →
        (isHostAllowedLog sf host).1 = false ∧
        ∃ p ∈ sf.disallow, matchesPattern host p = true ∧
          hostBlockedLog host p ∈ (isHostAllowedLog sf host).2)
      ∧ ((∀ p ∈ sf.disallow, matchesPattern host p = false) →
          sf.allow = [] → (isHostAllowedLog sf host).1 = true)
      ∧ ((∀ p ∈ sf.disallow, matchesPattern host p = false) →
          sf.allow ≠ [] →
          ((isHostAllowedLog sf host).1 = true ↔
            ∃ p ∈ sf.allow, matchesPattern host p = true)
          ∧ ((isHostAllowedLog sf host).1 = false →
              hostNotAllowedLog host ∈ (isHostAllowedLog sf host).2))) := by
  constructor
  · refine ⟨?_, ?_, ?_⟩
    · intro hex
      have hsome : ∃ p, cf.disallow.find?
          (fun p => matchesCommandPattern (squeezeWS (trimList cmd)) p) = some p := by
        rw [← Option.isSome_iff_exists, List.find?_isSome]
        obtain ⟨q, hq, hmq⟩ := hex
        exact ⟨q, hq, by simp [hmq]⟩
      obtain ⟨p, hfind⟩ := hsome
      refine ⟨?_, p, List.mem_of_find?_eq_some hfind, ?_, ?_⟩
      · simp [isCommandAllowed, hfind]
      · simpa using List.find?_some hfind
      · simp [isCommandAllowed, hfind]
    · intro hall hempty
      have hfind : cf.disallow.find?
          (fun p => matchesCommandPattern (squeezeWS (trimList cmd)) p) = none :=
        List.find?_eq_none.mpr fun p hp => by simp [hall p hp]
      simp [isCommandAllowed, hfind, hempty]
    · intro hall hne
      have hfind : cf.disallow.find?
          (fun p => matchesCommandPattern (squeezeWS (trimList cmd)) p) = none :=
        List.find?_eq_none.mpr fun p hp => by simp [hall p hp]
      by_cases hany : (cf.allow.any
          fun p => matchesCommandPattern (squeezeWS (trimList cmd)) p) = true
      · refine ⟨⟨fun _ => by simpa using hany, fun _ => ?_⟩, fun hfalse => ?_⟩
        · simp [isCommandAllowed, hfind, hne, hany]
        · simp [isCommandAllowed, hfind, hne, hany] at hfalse
      · have hnex : ¬∃ p ∈ cf.allow,
            matchesCommandPattern (squeezeWS (trimList cmd)) p = true := by
          intro hex2
          exact hany (by simpa using hex2)
        refine ⟨⟨fun htrue => ?_, fun hex2 => absurd hex2 hnex⟩, fun _ => ?_⟩
        · simp [isCommandAllowed, hfind, hne, hany] at htrue
        · simp [isCommandAllowed, hfind, hne, hany]
  · refine ⟨?_, ?_, ?_⟩
    · intro hex
      have hdne : sf.disallow ≠ [] := by
        intro h
        obtain ⟨q, hq, _⟩ := hex
        rw [h] at hq
        exact absurd hq (List.not_mem_nil q)
      have hcond : ¬(sf.allow = [] ∧ sf.disallow = []) := fun h => hdne h.2
      have hsome : ∃ p, sf.disallow.find? (fun p => matchesPattern host p) = some p := by
        rw [← Option.isSome_iff_exists, List.find?_isSome]
        obtain ⟨q, hq, hmq⟩ := hex
        exact ⟨q, hq, by simp [hmq]⟩
      obtain ⟨p, hfind⟩ := hsome
      refine ⟨?_, p, List.mem_of_find?_eq_some hfind, ?_, ?_⟩
      · simp [isHostAllowedLog, hcond, hfind]
      · simpa using List.find?_some hfind
      · simp [isHostAllowedLog, hcond, hfind]
    · intro hall hempty
      by_cases hboth : sf.allow = [] ∧ sf.disallow = []
      · simp [isHostAllowedLog, hboth]
      · have hfind : sf.disallow.find? (fun p => matchesPattern host p) = none :=
          List.find?_eq_none.mpr fun p hp => by simp [hall p hp]
        simp [isHostAllowedLog, hboth, hfind, hempty]
    · intro hall hne
      have hcond : ¬(sf.allow = [] ∧ sf.disallow = []) := fun h => hne h.1
      have hfind : sf.disallow.find? (fun p => matchesPattern host p) = none :=
        List.find?_eq_none.mpr fun p hp => by simp [hall p hp]
      rcases hfind2 : sf.allow.find? (fun p => matchesPattern host p) with _ | p
      · have hnex : ¬∃ p ∈ sf.allow, matchesPattern host p = true := by
          rintro ⟨p, hp, hm⟩
          have := List.find?_eq_none.mp hfind2 p hp
          simp [hm] at this
        refine ⟨⟨fun htrue => ?_, fun hex2 => absurd hex2 hnex⟩, fun _ => ?_⟩
        · simp [isHostAllowedLog, hcond, hfind, hne, hfind2] at htrue
        · simp [isHostAllowedLog, hcond, hfind, hne, hfind2]
      · refine ⟨⟨fun _ => ⟨p, List.mem_of_find?_eq_some hfind2,
            by simpa using List.find?_some hfind2⟩, fun _ => ?_⟩, fun hfalse => ?_⟩
        · simp [isHostAllowedLog, hcond, hfind, hne, hfind2]
        · simp [isHostAllowedLog, hcond, hfind, hne, hfind2] at hfalse

def cf1w : CommandFilter := { allow := [], disallow := [strL "rm *"] }

def sf1w : ServerFilter := { allow := [strL "web*"], disallow := [strL "prod-*"] }

/-- Witness for C1: concrete filters where a command passes a pure blocklist and
a host passes a non-empty allow list. -/
theorem claimC1_witness :
    (isCommandAllowed cf1w (strL "ls -la")).allowed = true
    ∧ (isHostAllowedLog sf1w (strL "web1")).1 = true := by
  constructor
  · exact (claimC1 cf1w sf1w (strL "ls -la") (strL "web1")).1.2.1 (by decide) rfl
  · exact ((claimC1 cf1w sf1w (strL "ls -la") (strL "web1")).2.2.2 (by decide)
      (by decide)).1.mpr ⟨strL "web*", by decide, by decide⟩

/-! ## Registry lookups replay the last commit -/

theorem mapGet_cons_eq {α β : Type} [DecidableEq α] (kv : α × β) (m : List (α × β))
    (a : α) (h : kv.1 = a) : mapGet (kv :: m) a = some kv.2 := by
  simp [mapGet, List.find?_cons, h]

theorem mapGet_cons_ne {α β : Type} [DecidableEq α] (kv : α × β) (m : List (α × β))
    (a : α) (h : ¬(kv.1 = a)) : mapGet (kv :: m) a = mapGet m a := by
  simp [mapGet, List.find?_cons, h]

theorem mapGet_mapSet {α β : Type} [DecidableEq α] (m : List (α × β)) (k a : α) (v : β) :
    mapGet (mapSet m k v) a = if k = a then some v else mapGet m a := by
  induction m with
  | nil =>
    by_cases h : k = a <;> simp [mapSet, mapGet, h]
  | cons kv rest ih =>
    by_cases h1 : kv.1 = k
    · by_cases h2 : k = a
      · subst h2
        rw [show mapSet (kv :: rest) k v = (k, v) :: rest from by simp [mapSet, h1]]
        rw [mapGet_cons_eq _ _ _ rfl, if_pos rfl]
      · have h3 : ¬(kv.1 = a) := by rw [h1]; exact h2
        rw [show mapSet (kv :: rest) k v = (k, v) :: rest from by simp [mapSet, h1]]
        rw [mapGet_cons_ne _ _ _ h2, mapGet_cons_ne _ _ _ h3, if_neg h2]
    · rw [show mapSet (kv :: rest) k v = kv :: mapSet rest k v from by simp [mapSet, h1]]
      by_cases h2 : kv.1 = a
      · have hka : ¬(k = a) := by rintro rfl; exact h1 h2
        rw [mapGet_cons_eq _ _ _ h2, mapGet_cons_eq _ _ _ h2, if_neg hka]
      · rw [mapGet_cons_ne _ _ _ h2, mapGet_cons_ne _ _ _ h2, ih]

theorem mapGet_registryOf_from (commits : List (Str × SSHHost)) (a : Str) :
    ∀ init : List (Str × SSHHost),
      mapGet (commits.foldl (fun m kv => mapSet m kv.1 kv.2) init) a =
        (lastCommitFor a commits).elim (mapGet init a) some := by
  induction commits with
  | nil => intro init; rfl
  | cons kv rest ih =>
    intro init
    rw [List.foldl_cons, ih (mapSet init kv.1 kv.2)]
    cases hrest : lastCommitFor a rest with
    | some v => simp [lastCommitFor, hrest]
    | none =>
      by_cases hk : kv.1 = a
      · simp [lastCommitFor, hrest, hk, mapGet_mapSet]
      · simp [lastCommitFor, hrest, hk, mapGet_mapSet]

theorem mapGet_registryOf (commits : List (Str × SSHHost)) (a : Str) :
    mapGet (registryOf commits) a = lastCommitFor a commits := by
  rw [registryOf, mapGet_registryOf_from commits a []]
  cases lastCommitFor a commits <;> rfl

def parseCtx0 : ParseCtx := ⟨⟨[], []⟩, [], fun _ _ => []⟩

/-- Claim C3: the finished registry maps every alias to exactly the record committed
for the last stanza declaring it — `lastCommitFor` replays no properties of
earlier stanzas — and the duplicate-alias inventory scenario yields the second
stanza's record (the third conjunct shows a first-stanza `User` is not merged). -/
theorem claimC3 (ctx : ParseCtx) (fuel : Nat) (content basePath a : Str) :
    mapGet (loadRegistry ctx fuel content basePath) a
      = lastCommitFor a (parseSSHConfig ctx fuel content basePath)
    ∧ loadRegistry parseCtx0 10
        (strL "Host a\n  HostName 1.1.1.1\nHost a\n  HostName 2.2.2.2") []
        = [(strL "a", { host := strL "a", hostname := some (strL "2.2.2.2") })]
    ∧ loadRegistry parseCtx0 10
        (strL "Host a\n  User u\nHost a\n  HostName 2.2.2.2") []
        = [(strL "a", { host := strL "a", hostname := some (strL "2.2.2.2") })] := by
  refine ⟨mapGet_registryOf _ a, by decide, by decide⟩

/-! ## Every commit passed the host policy -/

theorem commitList_allowed (ctx : ParseCtx) (cur : Option SSHHost) (kv : Str × SSHHost)
    (h : kv ∈ commitList ctx cur) : isHostAllowed ctx.policy kv.1 = true := by
  cases cur with
  | none => simp [commitList] at h
  | some hh =>
    simp only [commitList] at h
    by_cases ha : isHostAllowed ctx.policy hh.host = true
    · rw [if_pos ha] at h
      simp only [List.mem_singleton] at h
      rw [h]
      exact ha
    · rw [if_neg ha] at h
      exact absurd h (List.not_mem_nil kv)

theorem parseLines_allowed (ctx : ParseCtx) :
    ∀ (fuel : Nat) (lines : List Str) (basePath : Str) (cur : Option SSHHost)
      (kv : Str × SSHHost), kv ∈ parseLines ctx fuel lines basePath cur →
      isHostAllowed ctx.policy kv.1 = true := by
  intro fuel
  induction fuel with
  | zero =>
    intro lines bp cur kv hmem
    exact commitList_allowed ctx cur kv hmem
  | succ fuel ih =>
    intro lines bp cur kv hmem
    cases lines with
    | nil => exact commitList_allowed ctx cur kv hmem
    | cons rawLine rest =>
      simp only [parseLines] at hmem
      by_cases h1 : trimList rawLine = [] ∨ (trimList rawLine).head? = some '#'
      · rw [if_pos h1] at hmem
        exact ih rest bp cur kv hmem
      · rw [if_neg h1] at hmem
        by_cases h2 : leadsWith (strL "include ") (lowerStr (trimList rawLine)) = true
        · rw [if_pos h2] at hmem
          rw [List.mem_append] at hmem
          rcases hmem with hm | hm
          · rw [List.mem_flatten] at hm
            obtain ⟨l, hl, hkv⟩ := hm
            rw [List.mem_map] at hl
            obtain ⟨pc, _, rfl⟩ := hl
            exact ih _ _ _ kv hkv
          · exact ih rest bp cur kv hm
        · rw [if_neg h2] at hmem
          cases hsplit : splitWS (trimList rawLine) with
          | nil =>
            rw [hsplit] at hmem
            exact ih rest bp cur kv hmem
          | cons key vps =>
            rw [hsplit] at hmem
            simp only [] at hmem
            by_cases h3 : lowerStr key = strL "host"
            · rw [if_pos h3] at hmem
              rw [List.mem_append] at hmem
              rcases hmem with hm | hm
              · exact commitList_allowed ctx cur kv hm
              · exact ih rest bp _ kv hm
            · rw [if_neg h3] at hmem
              cases cur with
              | some hh =>
                replace hmem : kv ∈
                    (if key ≠ [] ∧ joinSp vps ≠ [] then
                      parseLines ctx fuel rest bp
                        (some (applyDirective ctx.home key (joinSp vps) hh))
                    else parseLines ctx fuel rest bp (some hh)) := hmem
                by_cases h4 : key ≠ [] ∧ joinSp vps ≠ []
                · rw [if_pos h4] at hmem
                  exact ih rest bp _ kv hmem
                · rw [if_neg h4] at hmem
                  exact ih rest bp _ kv hmem
              | none => exact ih rest bp none kv hmem

theorem lastCommitFor_mem (a : Str) (commits : List (Str × SSHHost)) (v : SSHHost)
    (h : lastCommitFor a commits = some v) : (a, v) ∈ commits := by
  induction commits with
  | nil => simp [lastCommitFor] at h
  | cons kv rest ih =>
    obtain ⟨k1, v1⟩ := kv
    simp only [lastCommitFor] at h
    cases hrest : lastCommitFor a rest with
    | some w =>
      rw [hrest] at h
      injection h with h
      subst h
      exact List.mem_cons_of_mem _ (ih hrest)
    | none =>
      rw [hrest] at h
      by_cases hk : k1 = a
      · rw [if_pos hk] at h
        injection h with h
        subst h
        subst hk
        exact List.mem_cons_self _ _
      · rw [if_neg hk] at h
        exact absurd h (by simp)

/-- Claim C9: a policy-rejected alias is omitted from the registry at ingestion, yet
request-time validation still distinguishes it from an unknown host: a stored
alias returns its record, an absent alias rejected by policy raises the
host-not-allowed error, and an absent alias permitted by policy raises the
host-not-found error. -/
theorem claimC9 (reg : List (Str × SSHHost)) (sf : ServerFilter) (h : Str)
    (cfg : SSHHost) (ctx : ParseCtx) (fuel : Nat) (content bp a : Str) :
    (isHostAllowed ctx.policy a = false →
      mapGet (loadRegistry ctx fuel content bp) a = none)
    ∧ (mapGet reg h = some cfg → validateHostAccess reg sf h = Except.ok cfg)
    ∧ (mapGet reg h = none → isHostAllowed sf h = false →
        validateHostAccess reg sf h = Except.error (hostNotAllowedErr h))
    ∧ (mapGet reg h = none → isHostAllowed sf h = true →
        validateHostAccess reg sf h = Except.error (hostNotFoundErr h)) := by
  refine ⟨?_, ?_, ?_, ?_⟩
  · intro hrej
    rw [loadRegistry, mapGet_registryOf]
    cases hlast : lastCommitFor a (parseSSHConfig ctx fuel content bp) with
    | none => rfl
    | some v =>
      have hmem := lastCommitFor_mem a _ v hlast
      have hallow := parseLines_allowed ctx fuel (splitOnChar nlC content) bp none (a, v) hmem
      simp [hrej] at hallow
  · intro hsome
    simp [validateHostAccess, hsome]
  · intro hnone hrej
    simp [validateHostAccess, hnone, hrej]
  · intro hnone hok
    simp [validateHostAccess, hnone, hok]

def hostW : SSHHost := { host := strL "a" }

def regW : List (Str × SSHHost) := [(strL "a", hostW)]

def sfW : ServerFilter := { allow := [], disallow := [strL "b"] }

def ctxW : ParseCtx := ⟨sfW, [], fun _ _ => []⟩

/-- Witness for C9: with a registry holding alias `a` and a policy disallowing
`b`, ingestion of a `b` stanza yields no registry entry, and request-time
validation distinguishes stored, rejected, and unknown aliases. -/
theorem claimC9_witness :
    mapGet (loadRegistry ctxW 10 (strL "Host b\n  HostName x") []) (strL "b") = none
    ∧ validateHostAccess regW sfW (strL "a") = Except.ok hostW
    ∧ validateHostAccess regW sfW (strL "b") = Except.error (hostNotAllowedErr (strL "b"))
    ∧ validateHostAccess regW sfW (strL "c") = Except.error (hostNotFoundErr (strL "c")) := by
  refine ⟨?_, ?_, ?_, ?_⟩
  · exact (claimC9 regW sfW (strL "a") hostW ctxW 10 (strL "Host b\n  HostName x") []
      (strL "b")).1 (by decide)
  · exact (claimC9 regW sfW (strL "a") hostW ctxW 10 (strL "Host b\n  HostName x") []
      (strL "b")).2.1 (by decide)
  · exact (claimC9 regW sfW (strL "b") hostW ctxW 10 (strL "Host b\n  HostName x") []
      (strL "b")).2.2.1 (by decide) (by decide)
  · exact (claimC9 regW sfW (strL "c") hostW ctxW 10 (strL "Host b\n  HostName x") []
      (strL "b")).2.2.2 (by decide) (by decide)

/-! ## The default command policy on the rm scenario -/

def c4cmd : Str := strL "rm -rf /var/tmp/x"

/-- Claim C4 counterexample: under the default policy the command is rejected, but
the rejection reason names the first matching disallow pattern `rm *` — the
text `rm -rf *` does not occur anywhere in the reason. -/
theorem claimC4_counterexample :
    (isCommandAllowed defaultCommandFilter c4cmd).allowed = false
    ∧ (isCommandAllowed defaultCommandFilter c4cmd).reason
        = some (cmdBlockedReason (strL "rm *"))
    ∧ containsSub (strL "rm -rf *") (cmdBlockedReason (strL "rm *")) = false := by
  refine ⟨by decide, by decide, by decide⟩

/-- Claim C4 amended: the command `rm -rf /var/tmp/x` is rejected under the default
policy, and the rejection reason references the pattern `rm *`, the first
matching entry of the default disallow list (which precedes `rm -rf *`). -/
theorem claimC4_amended :
    (isCommandAllowed defaultCommandFilter c4cmd).allowed = false
    ∧ (isCommandAllowed defaultCommandFilter c4cmd).reason
        = some (cmdBlockedReason (strL "rm *")) := by
  refine ⟨by decide, by decide⟩

/-! ## The base64-or-inline decision for pattern replaces -/

/-- Claim C5: a pattern-addressed replace synthesizes the base64 temporary-script
command exactly when `needsBase64Encoding` holds of the pattern and content,
and otherwise the direct in-line sed command; the classifier is true iff the
pattern or content contains a shell-significant character, a newline, or a
non-ASCII code point; and the `PRICE=\$[0-9]+` + single-quote scenario takes
the script path. -/
theorem claimC5 (path pat c : Str) (bk : Bool) (hp : pat ≠ []) :
    editFile path (strL "replace") none (some c) (some pat) bk
      = Except.ok (backupPart bk path ++
          (if needsBase64Encoding pat c then scriptReplaceCmd pat c path
           else inlineReplaceCmd pat c path))
    ∧ (needsBase64Encoding pat c = true ↔
        ∃ ch, (ch ∈ pat ∨ ch ∈ c) ∧
          (ch ∈ complexChars ∨ ch = nlC ∨ 127 < ch.toNat))
    ∧ needsBase64Encoding (strL "PRICE=\\$[0-9]+") (strL "O\x27Brien") = true := by
  refine ⟨?_, ?_, by decide⟩
  · have hpt : patTruthy (some pat) = some pat := by simp [patTruthy, hp]
    simp [editFile, lnTruthy, hpt]
  · simp only [needsBase64Encoding, Bool.or_eq_true, List.any_eq_true,
      decide_eq_true_eq]
    aesop

/-- Witness for C5 at the scenario inputs. -/
theorem claimC5_witness :
    (strL "PRICE=\\$[0-9]+" ≠ ([] : Str))
    ∧ editFile (strL "/etc/app.conf") (strL "replace") none (some (strL "O\x27Brien"))
        (some (strL "PRICE=\\$[0-9]+")) true
      = Except.ok (backupPart true (strL "/etc/app.conf") ++
          (if needsBase64Encoding (strL "PRICE=\\$[0-9]+") (strL "O\x27Brien") then
            scriptReplaceCmd (strL "PRICE=\\$[0-9]+") (strL "O\x27Brien")
              (strL "/etc/app.conf")
          else inlineReplaceCmd (strL "PRICE=\\$[0-9]+") (strL "O\x27Brien")
              (strL "/etc/app.conf"))) :=
  ⟨by decide, (claimC5 (strL "/etc/app.conf") (strL "PRICE=\\$[0-9]+")
    (strL "O\x27Brien") true (by decide)).1⟩

/-! ## Edit-intent validation -/

/-- Claim C6 counterexample: a replace intent carrying BOTH a lineNumber and a
pattern (with content) violates the claimed "exactly one of {lineNumber,
pattern}" requirement, yet synthesis succeeds instead of failing with a
validation error (the lineNumber branch wins). -/
theorem claimC6_counterexample :
    isOkE (editFile (strL "/tmp/f.txt") (strL "replace") (some 1) (some (strL "y"))
      (some (strL "x")) false) = true := by decide

/-- Claim C6 amended: synthesis fails with a validation error exactly when the truthy
required fields for the operation kind are missing — replace requires at least
one of a non-zero lineNumber or a non-empty pattern together with content
(lineNumber takes precedence when both are present), insert requires a non-zero
lineNumber and content, delete requires a non-zero lineNumber or a non-empty
pattern, and an unknown operation kind always fails; violations are never
coerced into another edit. -/
theorem claimC6_amended (path op : Str) (ln : Option Int) (c pat : Option Str)
    (bk : Bool) :
    isOkE (editFile path op ln c pat bk) = false ↔
      ¬((op = strL "replace"
            ∧ ((lnTruthy ln).isSome = true ∨ (patTruthy pat).isSome = true)
            ∧ c.isSome = true)
        ∨ (op = strL "insert" ∧ (lnTruthy ln).isSome = true ∧ c.isSome = true)
        ∨ (op = strL "delete"
            ∧ ((lnTruthy ln).isSome = true ∨ (patTruthy pat).isSome = true))) := by
  have e1 : ¬(strL "replace" = strL "insert") := by decide
  have e2 : ¬(strL "replace" = strL "delete") := by decide
  have e3 : ¬(strL "insert" = strL "delete") := by decide
  have e4 : ¬(strL "insert" = strL "replace") := by decide
  have e5 : ¬(strL "delete" = strL "replace") := by decide
  have e6 : ¬(strL "delete" = strL "insert") := by decide
  by_cases h1 : op = strL "replace"
  · subst h1
    rcases hl : lnTruthy ln with _ | n <;> rcases hc : c with _ | cv <;>
      rcases hp : patTruthy pat with _ | pv <;>
        simp [editFile, isOkE, hl, hc, hp, e1, e2]
  · by_cases h2 : op = strL "insert"
    · subst h2
      rcases hl : lnTruthy ln with _ | n <;> rcases hc : c with _ | cv <;>
        simp [editFile, isOkE, hl, hc, e3, e4]
    · by_cases h3 : op = strL "delete"
      · subst h3
        rcases hl : lnTruthy ln with _ | n <;> rcases hp : patTruthy pat with _ | pv <;>
          simp [editFile, isOkE, hl, hp, e5, e6]
      · simp [editFile, isOkE, h1, h2, h3]

/-! ## Round-trip of replacement escaping through sed -/

theorem escapeSedReplacement_cons (ch : Char) (s : Str) :
    escapeSedReplacement (ch :: s) =
      (if ch = bsC then [bsC, bsC] else if ch = '/' then [bsC, '/']
       else if ch = '&' then [bsC, '&'] else if ch = nlC then [bsC, 'n'] else [ch])
      ++ escapeSedReplacement s := by
  by_cases h1 : ch = bsC
  · subst h1
    simp [escapeSedReplacement, chReplace, bsC, nlC]
  · by_cases h2 : ch = '/'
    · subst h2
      simp [escapeSedReplacement, chReplace, bsC, nlC, h1]
    · by_cases h3 : ch = '&'
      · subst h3
        simp [escapeSedReplacement, chReplace, bsC, nlC, h1, h2]
      · by_cases h4 : ch = nlC
        · subst h4
          simp [escapeSedReplacement, chReplace, bsC, nlC, h1, h2, h3]
        · simp [escapeSedReplacement, chReplace, h1, h2, h3, h4]

theorem sedReplApply_escape (m R : Str) :
    sedReplApply m (escapeSedReplacement R) = R := by
  induction R with
  | nil => rfl
  | cons ch s ih =>
    rw [escapeSedReplacement_cons]
    by_cases h1 : ch = bsC
    · subst h1
      rw [if_pos rfl]
      rw [show ([bsC, bsC] ++ escapeSedReplacement s)
          = bsC :: bsC :: escapeSedReplacement s from rfl]
      rw [show sedReplApply m (bsC :: bsC :: escapeSedReplacement s)
          = bsC :: sedReplApply m (escapeSedReplacement s) from by
        simp [sedReplApply, bsC]]
      rw [ih]
    · by_cases h2 : ch = '/'
      · subst h2
        rw [if_neg h1, if_pos rfl]
        rw [show ([bsC, '/'] ++ escapeSedReplacement s)
            = bsC :: '/' :: escapeSedReplacement s from rfl]
        rw [show sedReplApply m (bsC :: '/' :: escapeSedReplacement s)
            = '/' :: sedReplApply m (escapeSedReplacement s) from by
          simp [sedReplApply, bsC]]
        rw [ih]
      · by_cases h3 : ch = '&'
        · subst h3
          rw [if_neg h1, if_neg h2, if_pos rfl]
          rw [show ([bsC, '&'] ++ escapeSedReplacement s)
              = bsC :: '&' :: escapeSedReplacement s from rfl]
          rw [show sedReplApply m (bsC :: '&' :: escapeSedReplacement s)
              = '&' :: sedReplApply m (escapeSedReplacement s) from by
            simp [sedReplApply, bsC]]
          rw [ih]
        · by_cases h4 : ch = nlC
          · subst h4
            rw [if_neg h1, if_neg h2, if_neg h3, if_pos rfl]
            rw [show ([bsC, 'n'] ++ escapeSedReplacement s)
                = bsC :: 'n' :: escapeSedReplacement s from rfl]
            rw [show sedReplApply m (bsC :: 'n' :: escapeSedReplacement s)
                = nlC :: sedReplApply m (escapeSedReplacement s) from by
              simp [sedReplApply, bsC, nlC]]
            rw [ih]
          · rw [if_neg h1, if_neg h2, if_neg h3, if_neg h4]
            rw [show ([ch] ++ escapeSedReplacement s)
                = ch :: escapeSedReplacement s from rfl]
            rw [show sedReplApply m (ch :: escapeSedReplacement s)
                = ch :: sedReplApply m (escapeSedReplacement s) from by
              rw [sedReplApply.eq_def]
              simp only [if_neg h1, if_neg h3]]
            rw [ih]

/-- Claim C7: escaping a replacement text with the replacement-role escaper and
applying the resulting sed substitution to a single-line target containing the
literal matched text reproduces the replacement text verbatim. -/
theorem claimC7 (R m pre post : Str) (h : '&' ∈ R ∨ '/' ∈ R ∨ bsC ∈ R) :
    sedSubstOutput m (escapeSedReplacement R) pre post = pre ++ R ++ post := by
  rw [sedSubstOutput, sedReplApply_escape]

/-- Witness for C7 on a replacement containing `&`, `/` and a backslash. -/
theorem claimC7_witness :
    ('&' ∈ strL "a&/\\b" ∨ '/' ∈ strL "a&/\\b" ∨ bsC ∈ strL "a&/\\b")
    ∧ sedSubstOutput (strL "X") (escapeSedReplacement (strL "a&/\\b")) (strL "p")
        (strL "q") = strL "p" ++ strL "a&/\\b" ++ strL "q" :=
  ⟨by decide, claimC7 (strL "a&/\\b") (strL "X") (strL "p") (strL "q") (by decide)⟩

/-! ## Script line validation -/

theorem checkLines_err_iff (cf : CommandFilter) (ls : List Str) :
    isOkE (checkLines cf ls) = false ↔
      ∃ l ∈ ls, (isCommandAllowed cf l).allowed = false := by
  induction ls with
  | nil => simp [checkLines, isOkE]
  | cons l rest ih =>
    by_cases h : (isCommandAllowed cf l).allowed = true
    · simp [checkLines, h, ih]
    · simp [checkLines, h, isOkE]

/-- Claim C8: a submitted script is rejected before dispatch exactly when some
trimmed line that is non-empty, not a `#` comment, and not an `echo `
statement fails the command policy; blank, comment, and echo lines never
cause rejection. -/
theorem claimC8 (cf : CommandFilter) (script : Str) :
    isOkE (scriptPolicyCheck cf script) = false ↔
      ∃ l ∈ (splitOnChar nlC script).map trimList,
        (l ≠ [] ∧ leadsWith (strL "#") l = false ∧ leadsWith (strL "echo ") l = false)
        ∧ (isCommandAllowed cf l).allowed = false := by
  rw [scriptPolicyCheck, checkLines_err_iff]
  constructor
  · rintro ⟨l, hl, hbad⟩
    rw [List.mem_filter] at hl
    have hk := hl.2
    simp only [scriptLineKeep, Bool.and_eq_true, Bool.not_eq_true',
      decide_eq_false_iff_not] at hk
    exact ⟨l, hl.1, ⟨hk.1.1, hk.1.2, hk.2⟩, hbad⟩
  · rintro ⟨l, hl, ⟨hne, hh, he⟩, hbad⟩
    refine ⟨l, ?_, hbad⟩
    rw [List.mem_filter]
    refine ⟨hl, ?_⟩
    simp only [scriptLineKeep, Bool.and_eq_true, Bool.not_eq_true',
      decide_eq_false_iff_not]
    exact ⟨⟨hne, hh⟩, he⟩

/-! ## Base64 transparency of the command policy -/

/-- Claim C10: for every host, command, and timeout, the single-command execution
pipeline makes the same policy decision (and produces the same error) whether
`useBase64` is requested or not; the flag only rewrites the final transport
string, the reported command, and the encoding tag of a permitted plan, so
base64 encoding can never bypass the command filter. -/
theorem claimC10 (reg : List (Str × SSHHost)) (sf : ServerFilter)
    (cf : CommandFilter) (host command : Str) (timeout : Int) :
    executeCommandPlan reg sf cf host command timeout true
      = Except.map (toBase64Plan command)
          (executeCommandPlan reg sf cf host command timeout false) := by
  unfold executeCommandPlan
  cases validateHostAccess reg sf host with
  | error e => rfl
  | ok cfg =>
    by_cases h : (isCommandAllowed cf command).allowed = true
    · simp [h, toBase64Plan, Except.map]
    · simp [h, Except.map]
